import Mathlib

/-!
Verification of the Streams channel core against its specification.

The DDML command pipeline and the sponge are modelled from the spec (the
spec explicitly allows any sponge construction with the stated interface);
the Keyload `sizeof`/`wrap`/`unwrap` scripts and the `Author` API are
transcribed from the source
(`iota-streams-app-channels/src/message/keyload.rs`,
`iota-streams-app-channels/src/api/tangle/author.rs`,
`examples/src/branching/single_branch.rs`).
-/

namespace Streams

/-- Modelled from the spec: a sponge event — either an absorbed byte or a
commit marker. "Two sponges are equal iff the sequence of commands applied
to them from a common initial state has been identical" (spec section 3),
so the sponge state is the event trace itself. -/
inductive Ev where
  | byte (b : Nat)
  | mark
deriving DecidableEq, Repr

/-- Modelled from the spec: sponge state as the trace of events applied. -/
structure Spongos where
  trace : List Ev
deriving DecidableEq, Repr

/-- Rolling hash step used to derive keystream bytes from the trace. -/
def evStep (h : Nat) : Ev → Nat
  | .byte b => (h * 31 + b + 1) % 1000003
  | .mark => (h * 31 + 999) % 1000003

/-- Keystream byte derived from the current sponge state. -/
def Spongos.squeezeByte (s : Spongos) : Nat :=
  s.trace.foldl evStep 0

/-- Modelled from the spec: absorb one byte (mix into state). -/
def Spongos.absorbByte (s : Spongos) (b : Nat) : Spongos :=
  ⟨s.trace ++ [.byte b]⟩

/-- Modelled from the spec: `commit()` finalizes pending absorption. -/
def Spongos.commit (s : Spongos) : Spongos :=
  ⟨s.trace ++ [.mark]⟩

/-- Modelled from the spec: absorb a byte string. -/
def Spongos.absorb (s : Spongos) (bs : List Nat) : Spongos :=
  bs.foldl Spongos.absorbByte s

/-- Modelled from the spec: `mask` on wrap — encrypt byte-by-byte
(ciphertext = plaintext xor keystream) while mixing the plaintext. -/
def Spongos.encrypt : Spongos → List Nat → Spongos × List Nat
  | s, [] => (s, [])
  | s, p :: ps =>
    let c := p ^^^ s.squeezeByte
    let r := (s.absorbByte p).encrypt ps
    (r.1, c :: r.2)

/-- Modelled from the spec: `mask` on unwrap — decrypt byte-by-byte while
mixing the recovered plaintext. -/
def Spongos.decrypt : Spongos → List Nat → Spongos × List Nat
  | s, [] => (s, [])
  | s, c :: cs =>
    let p := c ^^^ s.squeezeByte
    let r := (s.absorbByte p).decrypt cs
    (r.1, p :: r.2)

theorem Spongos.decrypt_encrypt (s : Spongos) (ps : List Nat) :
    s.decrypt (s.encrypt ps).2 = ((s.encrypt ps).1, ps) := by
  induction ps generalizing s with
  | nil => rfl
  | cons p ps ih =>
    simp only [Spongos.encrypt, Spongos.decrypt]
    rw [Nat.xor_cancel_right]
    rw [ih]

theorem Spongos.encrypt_length (s : Spongos) (ps : List Nat) :
    (s.encrypt ps).2.length = ps.length := by
  induction ps generalizing s with
  | nil => rfl
  | cons p ps ih =>
    simp only [Spongos.encrypt, List.length_cons]
    rw [ih]

theorem Spongos.encrypt_fst (s : Spongos) (ps : List Nat) :
    (s.encrypt ps).1 = s.absorb ps := by
  induction ps generalizing s with
  | nil => rfl
  | cons p ps ih =>
    simp only [Spongos.encrypt, Spongos.absorb, List.foldl_cons]
    exact ih _

/-- Modelled from the spec: X25519 key agreement as modular exponentiation
(treated as a black box; any commutative key agreement suffices). -/
def dhM : Nat := 101

/-- Group generator for the key-agreement model. -/
def dhG : Nat := 2

/-- Public key corresponding to a secret scalar. -/
def kePub (sk : Nat) : Nat := dhG ^ sk % dhM

/-- Shared secret computed from own secret and the peer's public key. -/
def dhShared (sk pk : Nat) : Nat := pk ^ sk % dhM

theorem dhShared_comm (a b : Nat) : dhShared a (kePub b) = dhShared b (kePub a) := by
  unfold dhShared kePub
  rw [← Nat.pow_mod, ← Nat.pow_mod, ← pow_mul, ← pow_mul, Nat.mul_comm]

/-- Wire encoding of an X25519 public key (32 bytes). -/
def encode32 (n : Nat) : List Nat := n :: List.replicate 31 0

/-- Wire decoding of an X25519 public key. -/
def decode32 (bs : List Nat) : Nat := bs.headD 0

/-- Wire encoding of a relative message link (12 bytes). -/
def encodeLink (l : Nat) : List Nat := l :: List.replicate 11 0

/-- Wire decoding of a relative message link. -/
def decodeLink (bs : List Nat) : Nat := bs.headD 0

/-- Wire encoding of a `Size` repetition count. -/
def encodeSize (n : Nat) : List Nat := [n]

/-- Wire decoding of a `Size` repetition count. -/
def decodeSize (bs : List Nat) : Nat := bs.headD 0

theorem decode32_encode32 (n : Nat) : decode32 (encode32 n) = n := rfl

theorem encode32_length (n : Nat) : (encode32 n).length = 32 := by
  simp [encode32]

theorem encodeLink_length (l : Nat) : (encodeLink l).length = 12 := by
  simp [encodeLink]

/-- DDML command performed by a wrap pass, recorded for the command-order
claims. A `fork` carries the commands of its body. -/
inductive Cmd where
  | join (link : Nat)
  | absorb (bs : List Nat)
  | absorbExternal (bs : List Nat)
  | mask (bs : List Nat)
  | skip (n : Nat)
  | x25519 (pk : Nat) (key : List Nat)
  | commit
  | fork (body : List Cmd)

/-- Modelled from the spec: the wrap-pass DDML context — sponge, emitted
byte stream, and the trace of commands performed. -/
structure WrapCtx where
  s : Spongos
  out : List Nat
  cmds : List Cmd

/-- Modelled from the spec: wrap `absorb` — mixes public data into the
sponge and emits it on the wire. -/
def WrapCtx.absorbBytes (ctx : WrapCtx) (bs : List Nat) : WrapCtx :=
  ⟨ctx.s.absorb bs, ctx.out ++ bs, ctx.cmds ++ [.absorb bs]⟩

/-- Modelled from the spec: wrap `absorb external` — mixes data that is not
transmitted. -/
def WrapCtx.absorbExternal (ctx : WrapCtx) (bs : List Nat) : WrapCtx :=
  ⟨ctx.s.absorb bs, ctx.out, ctx.cmds ++ [.absorbExternal bs]⟩

/-- Modelled from the spec: wrap `mask` — emits the ciphertext, mixes the
plaintext. -/
def WrapCtx.maskBytes (ctx : WrapCtx) (bs : List Nat) : WrapCtx :=
  let r := ctx.s.encrypt bs
  ⟨r.1, ctx.out ++ r.2, ctx.cmds ++ [.mask bs]⟩

/-- Modelled from the spec: wrap `skip` of a repetition count — raw bytes,
no sponge effect. -/
def WrapCtx.skipSize (ctx : WrapCtx) (n : Nat) : WrapCtx :=
  ⟨ctx.s, ctx.out ++ encodeSize n, ctx.cmds ++ [.skip n]⟩

/-- Modelled from the spec: wrap `commit`. -/
def WrapCtx.commitC (ctx : WrapCtx) : WrapCtx :=
  ⟨ctx.s.commit, ctx.out, ctx.cmds ++ [.commit]⟩

/-- Modelled from the spec: wrap `join` — the parent-committed sponge state
looked up in the link store becomes the starting state, and the link is
written with skip semantics. -/
def WrapCtx.joinC (store : Nat → Spongos) (ctx : WrapCtx) (l : Nat) : WrapCtx :=
  ⟨store l, ctx.out ++ encodeLink l, ctx.cmds ++ [.join l]⟩

/-- Modelled from the spec: wrap `x25519(pk, key)` — emits and absorbs the
ephemeral public key, absorbs the Diffie-Hellman shared secret, commits,
then emits `key` masked under the resulting state. The ephemeral secret
`eph` is the randomness the source draws from its RNG. -/
def WrapCtx.x25519W (ctx : WrapCtx) (pk eph : Nat) (key : List Nat) : WrapCtx :=
  let s1 := ctx.s.absorb (encode32 (kePub eph))
  let s2 := s1.absorb (encode32 (dhShared eph pk))
  let s3 := s2.commit
  let r := s3.encrypt key
  ⟨r.1, ctx.out ++ encode32 (kePub eph) ++ r.2, ctx.cmds ++ [.x25519 pk key]⟩

/-- Modelled from the spec: wrap `fork` — the body runs on a snapshot of the
sponge; its stream effects are kept, the parent sponge is restored. -/
def WrapCtx.forkC (ctx : WrapCtx) (body : WrapCtx → WrapCtx) : WrapCtx :=
  let inner := body ⟨ctx.s, [], []⟩
  ⟨ctx.s, ctx.out ++ inner.out, ctx.cmds ++ [.fork inner.cmds]⟩

/-- Content of a Keyload message, from `keyload.rs` `ContentWrap`: parent
link, nonce, session key, the PSK recipients as (PskId, Psk) pairs, and the
X25519 recipients as (recipient public key, ephemeral secret) pairs — the
ephemeral secret is the per-fork randomness the x25519 command consumes. -/
structure KeyloadContent where
  link : Nat
  nonce : List Nat
  key : List Nat
  psks : List (List Nat × List Nat)
  kePks : List (Nat × Nat)

/-- Type byte of the Keyload message, from `keyload.rs`: `TYPE = Uint8(1)`. -/
def keyloadTYPE : Nat := 1

/-- Transcription of `ContentWrap::wrap` from `keyload.rs` lines 119-144:
join parent, absorb nonce, skip psk count, repeated psk forks
(mask PskId, absorb external Psk, commit, mask key), skip ke count,
repeated ke forks (absorb recipient pk, x25519 key), absorb external key,
commit. -/
def keyloadWrap (store : Nat → Spongos) (c : KeyloadContent) : WrapCtx :=
  let ctx : WrapCtx := ⟨⟨[]⟩, [], []⟩
  let ctx := ctx.joinC store c.link
  let ctx := ctx.absorbBytes c.nonce
  let ctx := ctx.skipSize c.psks.length
  let ctx := c.psks.foldl (fun ctx p =>
    ctx.forkC (fun ctx =>
      (((ctx.maskBytes p.1).absorbExternal p.2).commitC).maskBytes c.key)) ctx
  let ctx := ctx.skipSize c.kePks.length
  let ctx := c.kePks.foldl (fun ctx kp =>
    ctx.forkC (fun ctx => (ctx.absorbBytes (encode32 kp.1)).x25519W kp.1 kp.2 c.key)) ctx
  let ctx := ctx.absorbExternal c.key
  ctx.commitC

/-- Size-of context `absorb`: counts the transmitted bytes. -/
def szAbsorb (n : Nat) (bs : List Nat) : Nat := n + bs.length

/-- Size-of context `absorb external`: nothing transmitted. -/
def szAbsorbExternal (n : Nat) (bs : List Nat) : Nat :=
  let _ := bs
  n

/-- Size-of context `mask`: ciphertext has the plaintext's length. -/
def szMask (n : Nat) (bs : List Nat) : Nat := n + bs.length

/-- Size-of context `skip` of a repetition count. -/
def szSkipSize (n : Nat) (k : Nat) : Nat := n + (encodeSize k).length

/-- Size-of context `commit`: nothing transmitted. -/
def szCommit (n : Nat) : Nat := n

/-- Size-of context `join`: the link is written with skip semantics. -/
def szJoin (n : Nat) (l : Nat) : Nat := n + (encodeLink l).length

/-- Size-of context `x25519`: ephemeral public key plus masked key field. -/
def szX25519 (n : Nat) (key : List Nat) : Nat := n + 32 + key.length

/-- Size-of context `fork`: the body's bytes are counted from zero. -/
def szFork (n : Nat) (body : Nat → Nat) : Nat := n + body 0

/-- Transcription of `ContentWrap::sizeof` from `keyload.rs` lines 92-117:
the identical command sequence as the wrap pass, in the size-of context. -/
def keyloadSizeof (c : KeyloadContent) : Nat :=
  let n := 0
  let n := szJoin n c.link
  let n := szAbsorb n c.nonce
  let n := szSkipSize n c.psks.length
  let n := c.psks.foldl (fun n p =>
    szFork n (fun m => szMask (szCommit (szAbsorbExternal (szMask m p.1) p.2)) c.key)) n
  let n := szSkipSize n c.kePks.length
  let n := c.kePks.foldl (fun n kp =>
    szFork n (fun m => szX25519 (szAbsorb m (encode32 kp.1)) c.key)) n
  let n := szAbsorbExternal n c.key
  szCommit n

/-- Modelled from the spec: the unwrap-pass DDML context — sponge and the
remaining input byte stream. -/
structure UnwrapCtx where
  s : Spongos
  inp : List Nat
deriving DecidableEq

/-- Read `n` raw bytes from the input stream; fails when the stream is
shorter. -/
def UnwrapCtx.takeBytes (ctx : UnwrapCtx) (n : Nat) : Except String (List Nat × UnwrapCtx) :=
  if n ≤ ctx.inp.length then .ok (ctx.inp.take n, ⟨ctx.s, ctx.inp.drop n⟩)
  else .error "stream exhausted"

/-- Modelled from the spec: unwrap `absorb` — reads the bytes and mixes them
into the sponge. -/
def UnwrapCtx.absorbU (ctx : UnwrapCtx) (n : Nat) : Except String (List Nat × UnwrapCtx) :=
  match ctx.takeBytes n with
  | .error e => .error e
  | .ok (bs, ctx) => .ok (bs, ⟨ctx.s.absorb bs, ctx.inp⟩)

/-- Modelled from the spec: unwrap `mask` — reads the ciphertext, decrypts,
and mixes the recovered plaintext. -/
def UnwrapCtx.maskU (ctx : UnwrapCtx) (n : Nat) : Except String (List Nat × UnwrapCtx) :=
  match ctx.takeBytes n with
  | .error e => .error e
  | .ok (cs, ctx) =>
    let r := ctx.s.decrypt cs
    .ok (r.2, ⟨r.1, ctx.inp⟩)

/-- Modelled from the spec: unwrap `skip` of a repetition count. -/
def UnwrapCtx.skipU (ctx : UnwrapCtx) : Except String (Nat × UnwrapCtx) :=
  match ctx.takeBytes 1 with
  | .error e => .error e
  | .ok (bs, ctx) => .ok (decodeSize bs, ctx)

/-- Modelled from the spec: `drop(n)` — consume `n` raw bytes without
touching the sponge (used to drain unmatched forks). -/
def UnwrapCtx.dropU (ctx : UnwrapCtx) (n : Nat) : Except String UnwrapCtx :=
  match ctx.takeBytes n with
  | .error e => .error e
  | .ok (_, ctx) => .ok ctx

/-- Modelled from the spec: unwrap `absorb external` — nothing read. -/
def UnwrapCtx.absorbExternalU (ctx : UnwrapCtx) (bs : List Nat) : UnwrapCtx :=
  ⟨ctx.s.absorb bs, ctx.inp⟩

/-- Modelled from the spec: unwrap `commit`. -/
def UnwrapCtx.commitU (ctx : UnwrapCtx) : UnwrapCtx :=
  ⟨ctx.s.commit, ctx.inp⟩

/-- Modelled from the spec: unwrap `join` — reads the link and resumes the
parent-committed sponge state from the link store. -/
def UnwrapCtx.joinU (store : Nat → Spongos) (ctx : UnwrapCtx) : Except String (Nat × UnwrapCtx) :=
  match ctx.takeBytes 12 with
  | .error e => .error e
  | .ok (bs, ctx) =>
    let l := decodeLink bs
    .ok (l, ⟨store l, ctx.inp⟩)

/-- Modelled from the spec: unwrap `x25519(sk, key)` — reads and absorbs the
ephemeral public key, absorbs the Diffie-Hellman shared secret, commits,
then decrypts the masked key field. -/
def UnwrapCtx.x25519U (ctx : UnwrapCtx) (sk : Nat) : Except String (List Nat × UnwrapCtx) :=
  match ctx.absorbU 32 with
  | .error e => .error e
  | .ok (ephBs, ctx) =>
    let ctx := ctx.absorbExternalU (encode32 (dhShared sk (decode32 ephBs)))
    let ctx := ctx.commitU
    ctx.maskU 32

/-- Modelled from the spec: `guard(cond, msg)` fails unwrap with a
recoverable error when `cond` is false. -/
def guardU (cond : Bool) (msg : String) : Except String Unit :=
  if cond then .ok () else .error msg

/-- Recipient-side key material backing the `lookup_psk` and `lookup_ke_sk`
closures of `ContentUnwrap`. -/
structure KeyLookup where
  psks : List (List Nat × List Nat)
  keSks : List Nat
deriving DecidableEq

/-- The `lookup_psk` closure: the stored Psk for a PskId, when known. -/
def lookupPsk (lk : KeyLookup) (id : List Nat) : Option (List Nat) :=
  (lk.psks.find? (fun p => p.1 = id)).map Prod.snd

/-- The `lookup_ke_sk` closure: the static secret whose public key matches,
when known. -/
def lookupKeSk (lk : KeyLookup) (pk : Nat) : Option Nat :=
  lk.keSks.find? (fun sk => kePub sk = pk)

/-- Mutable state threaded through `ContentUnwrap::unwrap`: the DDML
context, the `key_found` flag, the `self.key` buffer, and the `self.ke_pks`
set of recipient public keys seen. -/
structure UState where
  ctx : UnwrapCtx
  keyFound : Bool
  key : List Nat
  kePks : List Nat
deriving DecidableEq

/-- Transcription of the psk `repeated` loop of `ContentUnwrap::unwrap`
(`keyload.rs` lines 209-230): when the key was already found the entire
fork is dropped (`PSKID_SIZE + 0 + 0 + KEY_SIZE` bytes); otherwise the fork
masks the PskId and either recovers the key on a `lookup_psk` hit, setting
`key_found`, or drops the rest of the fork (`0 + 0 + KEY_SIZE` bytes). The
fork restores the parent sponge on exit. -/
def unwrapPskForks (lk : KeyLookup) : Nat → UState → Except String UState
  | 0, st => .ok st
  | n + 1, st =>
    if st.keyFound then
      match st.ctx.dropU 48 with
      | .error e => .error e
      | .ok ctx => unwrapPskForks lk n { st with ctx := ctx }
    else
      let s0 := st.ctx.s
      match st.ctx.maskU 16 with
      | .error e => .error e
      | .ok (pskid, ctx) =>
        match lookupPsk lk pskid with
        | some psk =>
          let ctx := (ctx.absorbExternalU psk).commitU
          match ctx.maskU 32 with
          | .error e => .error e
          | .ok (key, ctx) =>
            unwrapPskForks lk n { st with ctx := ⟨s0, ctx.inp⟩, keyFound := true, key := key }
        | none =>
          match ctx.dropU 32 with
          | .error e => .error e
          | .ok ctx => unwrapPskForks lk n { st with ctx := ⟨s0, ctx.inp⟩ }

/-- Transcription of the ke `repeated` loop of `ContentUnwrap::unwrap`
(`keyload.rs` lines 232-247): every fork absorbs the recipient public key
and records it in `self.ke_pks`; on a `lookup_ke_sk` hit the x25519 command
recovers the key and sets `key_found`, otherwise 64 bytes are dropped. The
fork restores the parent sponge on exit. -/
def unwrapKeForks (lk : KeyLookup) : Nat → UState → Except String UState
  | 0, st => .ok st
  | n + 1, st =>
    let s0 := st.ctx.s
    match st.ctx.absorbU 32 with
    | .error e => .error e
    | .ok (pkBs, ctx) =>
      let pk := decode32 pkBs
      let kePks := st.kePks ++ [pk]
      match lookupKeSk lk pk with
      | some sk =>
        match ctx.x25519U sk with
        | .error e => .error e
        | .ok (key, ctx) =>
          unwrapKeForks lk n ⟨⟨s0, ctx.inp⟩, true, key, kePks⟩
      | none =>
        match ctx.dropU 64 with
        | .error e => .error e
        | .ok ctx => unwrapKeForks lk n { st with ctx := ⟨s0, ctx.inp⟩, kePks := kePks }

/-- Fields recovered by a successful Keyload unwrap. -/
structure KeyloadUnwrapped where
  link : Nat
  nonce : List Nat
  key : List Nat
  kePks : List Nat
deriving DecidableEq

/-- Transcription of `ContentUnwrap::unwrap` from `keyload.rs` lines
196-253: join parent, absorb nonce, skip psk count, psk fork loop, skip ke
count, ke fork loop, `guard(key_found, "Key not found")`, absorb external
of the recovered key, commit. The `self.key` buffer starts as
`NBytes::zero(KEY_SIZE)`. -/
def keyloadUnwrap (store : Nat → Spongos) (lk : KeyLookup) (inp : List Nat) :
    Except String (KeyloadUnwrapped × UnwrapCtx) :=
  let ctx : UnwrapCtx := ⟨⟨[]⟩, inp⟩
  match ctx.joinU store with
  | .error e => .error e
  | .ok (link, ctx) =>
    match ctx.absorbU 16 with
    | .error e => .error e
    | .ok (nonce, ctx) =>
      match ctx.skipU with
      | .error e => .error e
      | .ok (npsk, ctx) =>
        match unwrapPskForks lk npsk ⟨ctx, false, List.replicate 32 0, []⟩ with
        | .error e => .error e
        | .ok st =>
          match st.ctx.skipU with
          | .error e => .error e
          | .ok (nke, ctx) =>
            match unwrapKeForks lk nke { st with ctx := ctx } with
            | .error e => .error e
            | .ok st =>
              match guardU st.keyFound "Key not found" with
              | .error e => .error e
              | .ok _ =>
                let ctx := (st.ctx.absorbExternalU st.key).commitU
                .ok (⟨link, nonce, st.key, st.kePks⟩, ctx)

/-- Bytes a single psk fork of the wrap pass emits, as a function of the
parent sponge at the fork: ciphertext of the PskId, then ciphertext of the
session key under the state after absorbing the Psk and committing. -/
def pskForkOut (s : Spongos) (key : List Nat) (p : List Nat × List Nat) : List Nat :=
  (s.encrypt p.1).2 ++ ((((s.encrypt p.1).1.absorb p.2).commit).encrypt key).2

/-- Bytes a single ke fork of the wrap pass emits: the recipient public
key, the ephemeral public key, and the ciphertext of the session key. -/
def keForkOut (s : Spongos) (key : List Nat) (kp : Nat × Nat) : List Nat :=
  encode32 kp.1 ++ encode32 (kePub kp.2) ++
    ((((s.absorb (encode32 kp.1)).absorb (encode32 (kePub kp.2))).absorb
        (encode32 (dhShared kp.2 kp.1))).commit.encrypt key).2

theorem pskBody_out (s : Spongos) (key : List Nat) (p : List Nat × List Nat) :
    ((((WrapCtx.maskBytes ⟨s, [], []⟩ p.1).absorbExternal p.2).commitC).maskBytes key).out
      = pskForkOut s key p := rfl

theorem keBody_out (s : Spongos) (key : List Nat) (kp : Nat × Nat) :
    ((WrapCtx.absorbBytes ⟨s, [], []⟩ (encode32 kp.1)).x25519W kp.1 kp.2 key).out
      = keForkOut s key kp := rfl

theorem foldl_forkC_s {α : Type} (g : α → WrapCtx → WrapCtx) (xs : List α) (ctx : WrapCtx) :
    (xs.foldl (fun ctx x => ctx.forkC (g x)) ctx).s = ctx.s := by
  induction xs generalizing ctx with
  | nil => rfl
  | cons x xs ih =>
    simp only [List.foldl_cons]
    rw [ih]
    rfl

theorem foldl_forkC_out {α : Type} (g : α → WrapCtx → WrapCtx) (xs : List α) (ctx : WrapCtx) :
    (xs.foldl (fun ctx x => ctx.forkC (g x)) ctx).out =
      ctx.out ++ (xs.map (fun x => (g x ⟨ctx.s, [], []⟩).out)).join := by
  induction xs generalizing ctx with
  | nil => simp
  | cons x xs ih =>
    simp only [List.foldl_cons, List.map_cons, List.join_cons]
    rw [ih]
    simp [WrapCtx.forkC]

theorem foldl_forkC_cmds {α : Type} (g : α → WrapCtx → WrapCtx) (xs : List α) (ctx : WrapCtx) :
    (xs.foldl (fun ctx x => ctx.forkC (g x)) ctx).cmds =
      ctx.cmds ++ xs.map (fun x => Cmd.fork (g x ⟨ctx.s, [], []⟩).cmds) := by
  induction xs generalizing ctx with
  | nil => simp
  | cons x xs ih =>
    simp only [List.foldl_cons, List.map_cons]
    rw [ih]
    simp [WrapCtx.forkC]

/-- The sponge at every fork of the Keyload wrap pass: parent state after
join and nonce absorption. -/
def keyloadBase (store : Nat → Spongos) (c : KeyloadContent) : Spongos :=
  (store c.link).absorb c.nonce

theorem commitC_out (ctx : WrapCtx) : ctx.commitC.out = ctx.out := rfl

theorem commitC_s (ctx : WrapCtx) : ctx.commitC.s = ctx.s.commit := rfl

theorem commitC_cmds (ctx : WrapCtx) : ctx.commitC.cmds = ctx.cmds ++ [Cmd.commit] := rfl

theorem absorbExternal_out (ctx : WrapCtx) (bs : List Nat) :
    (ctx.absorbExternal bs).out = ctx.out := rfl

theorem absorbExternal_s (ctx : WrapCtx) (bs : List Nat) :
    (ctx.absorbExternal bs).s = ctx.s.absorb bs := rfl

theorem absorbExternal_cmds (ctx : WrapCtx) (bs : List Nat) :
    (ctx.absorbExternal bs).cmds = ctx.cmds ++ [Cmd.absorbExternal bs] := rfl

theorem skipSize_out (ctx : WrapCtx) (n : Nat) :
    (ctx.skipSize n).out = ctx.out ++ encodeSize n := rfl

theorem skipSize_s (ctx : WrapCtx) (n : Nat) : (ctx.skipSize n).s = ctx.s := rfl

theorem skipSize_cmds (ctx : WrapCtx) (n : Nat) :
    (ctx.skipSize n).cmds = ctx.cmds ++ [Cmd.skip n] := rfl

theorem absorbBytes_out (ctx : WrapCtx) (bs : List Nat) :
    (ctx.absorbBytes bs).out = ctx.out ++ bs := rfl

theorem absorbBytes_s (ctx : WrapCtx) (bs : List Nat) :
    (ctx.absorbBytes bs).s = ctx.s.absorb bs := rfl

theorem absorbBytes_cmds (ctx : WrapCtx) (bs : List Nat) :
    (ctx.absorbBytes bs).cmds = ctx.cmds ++ [Cmd.absorb bs] := rfl

theorem joinC_out (store : Nat → Spongos) (ctx : WrapCtx) (l : Nat) :
    (ctx.joinC store l).out = ctx.out ++ encodeLink l := rfl

theorem joinC_s (store : Nat → Spongos) (ctx : WrapCtx) (l : Nat) :
    (ctx.joinC store l).s = store l := rfl

theorem joinC_cmds (store : Nat → Spongos) (ctx : WrapCtx) (l : Nat) :
    (ctx.joinC store l).cmds = ctx.cmds ++ [Cmd.join l] := rfl

theorem keyloadWrap_out (store : Nat → Spongos) (c : KeyloadContent) :
    (keyloadWrap store c).out =
      encodeLink c.link ++ c.nonce ++ encodeSize c.psks.length ++
        (c.psks.map (pskForkOut (keyloadBase store c) c.key)).join ++
        encodeSize c.kePks.length ++
        (c.kePks.map (keForkOut (keyloadBase store c) c.key)).join := by
  unfold keyloadWrap
  simp only [commitC_out, absorbExternal_out, foldl_forkC_out, foldl_forkC_s,
    skipSize_out, skipSize_s, absorbBytes_out, absorbBytes_s, joinC_out, joinC_s,
    pskBody_out, keBody_out]
  simp only [keyloadBase, List.append_assoc, List.nil_append]

theorem pskForkOut_length (s : Spongos) (key : List Nat) (p : List Nat × List Nat) :
    (pskForkOut s key p).length = p.1.length + key.length := by
  simp [pskForkOut, Spongos.encrypt_length]

theorem keForkOut_length (s : Spongos) (key : List Nat) (kp : Nat × Nat) :
    (keForkOut s key kp).length = 64 + key.length := by
  simp [keForkOut, Spongos.encrypt_length, encode32_length]
  omega

theorem length_comp_pskForkOut (s : Spongos) (key : List Nat) :
    (List.length ∘ pskForkOut s key) = fun p => p.1.length + key.length :=
  funext fun p => pskForkOut_length s key p

theorem length_comp_keForkOut (s : Spongos) (key : List Nat) :
    (List.length ∘ keForkOut s key) = fun kp => 64 + key.length :=
  funext fun kp => keForkOut_length s key kp

theorem foldl_szFork {α : Type} (g : α → Nat → Nat) (xs : List α) (n : Nat) :
    xs.foldl (fun n x => szFork n (g x)) n = n + (xs.map (fun x => g x 0)).sum := by
  induction xs generalizing n with
  | nil => simp
  | cons x xs ih =>
    simp only [List.foldl_cons, List.map_cons, List.sum_cons]
    rw [ih]
    simp [szFork]
    omega

theorem keyloadWrap_cmds (store : Nat → Spongos) (c : KeyloadContent) :
    (keyloadWrap store c).cmds =
      [Cmd.join c.link, Cmd.absorb c.nonce, Cmd.skip c.psks.length] ++
        c.psks.map (fun p =>
          Cmd.fork [Cmd.mask p.1, Cmd.absorbExternal p.2, Cmd.commit, Cmd.mask c.key]) ++
        [Cmd.skip c.kePks.length] ++
        c.kePks.map (fun kp =>
          Cmd.fork [Cmd.absorb (encode32 kp.1), Cmd.x25519 kp.1 c.key]) ++
        [Cmd.absorbExternal c.key, Cmd.commit] := by
  unfold keyloadWrap
  simp only [commitC_cmds, absorbExternal_cmds, foldl_forkC_cmds, foldl_forkC_s,
    skipSize_cmds, skipSize_s, absorbBytes_cmds, absorbBytes_s, joinC_cmds, joinC_s]
  simp [WrapCtx.maskBytes, WrapCtx.absorbExternal, WrapCtx.commitC, WrapCtx.x25519W,
    WrapCtx.absorbBytes]

/-- C5: the sizeof pass and the wrap pass of the Keyload content apply the
identical command sequence, so for every Keyload content the byte length
computed by `ContentWrap::sizeof` equals the number of bytes written by
`ContentWrap::wrap`. -/
theorem keyload_sizeof_eq_wrap_length (store : Nat → Spongos) (c : KeyloadContent) :
    keyloadSizeof c = (keyloadWrap store c).out.length := by
  rw [keyloadWrap_out]
  simp only [keyloadSizeof, szJoin, szAbsorb, szSkipSize, szCommit, szAbsorbExternal,
    szMask, szX25519, foldl_szFork]
  simp [List.length_join, List.map_map, length_comp_pskForkOut, length_comp_keForkOut,
    encode32_length, encodeSize, encodeLink]
  omega

/-- C6: the Keyload message has type byte 1, and its wrap pass performs, in
this order: join to the parent link, absorb of the nonce, skip of the PSK
count, for each PSK a fork that masks the 16-byte PskId, externally absorbs
the 32-byte Psk, commits, and masks the 32-byte session key, then skip of
the X25519 count, for each recipient a fork that absorbs the recipient
public key and runs the x25519 command on the session key, then an external
absorb of the session key and a final commit. -/
theorem keyload_type_and_wrap_command_order (store : Nat → Spongos) (c : KeyloadContent)
    (hkey : c.key.length = 32)
    (hpsks : ∀ p ∈ c.psks, p.1.length = 16 ∧ p.2.length = 32) :
    keyloadTYPE = 1 ∧
    (keyloadWrap store c).cmds =
      [Cmd.join c.link, Cmd.absorb c.nonce, Cmd.skip c.psks.length] ++
        c.psks.map (fun p =>
          Cmd.fork [Cmd.mask p.1, Cmd.absorbExternal p.2, Cmd.commit, Cmd.mask c.key]) ++
        [Cmd.skip c.kePks.length] ++
        c.kePks.map (fun kp =>
          Cmd.fork [Cmd.absorb (encode32 kp.1), Cmd.x25519 kp.1 c.key]) ++
        [Cmd.absorbExternal c.key, Cmd.commit] := by
  exact ⟨rfl, keyloadWrap_cmds store c⟩

/-- Witness for C6 at a concrete one-PSK, one-recipient content. -/
theorem keyload_type_and_wrap_command_order_witness :
    (List.replicate 32 (9 : Nat)).length = 32 ∧
    (keyloadTYPE = 1 ∧
      (keyloadWrap (fun _ => ⟨[]⟩)
          ⟨7, List.replicate 16 3, List.replicate 32 9,
            [(List.replicate 16 1, List.replicate 32 2)], [(kePub 5, 4)]⟩).cmds =
        [Cmd.join 7, Cmd.absorb (List.replicate 16 3), Cmd.skip 1] ++
          [Cmd.fork [Cmd.mask (List.replicate 16 1), Cmd.absorbExternal (List.replicate 32 2),
            Cmd.commit, Cmd.mask (List.replicate 32 9)]] ++
          [Cmd.skip 1] ++
          [Cmd.fork [Cmd.absorb (encode32 (kePub 5)), Cmd.x25519 (kePub 5) (List.replicate 32 9)]] ++
          [Cmd.absorbExternal (List.replicate 32 9), Cmd.commit]) := by
  refine ⟨by decide, ?_⟩
  exact keyload_type_and_wrap_command_order (fun _ => ⟨[]⟩)
    ⟨7, List.replicate 16 3, List.replicate 32 9,
      [(List.replicate 16 1, List.replicate 32 2)], [(kePub 5, 4)]⟩
    (by decide) (by decide)

theorem takeBytes_append (s : Spongos) (xs ys : List Nat) :
    UnwrapCtx.takeBytes ⟨s, xs ++ ys⟩ xs.length = .ok (xs, ⟨s, ys⟩) := by
  unfold UnwrapCtx.takeBytes
  rw [if_pos]
  · simp
  · simp

theorem takeBytes_append_len (s : Spongos) {xs : List Nat} {n : Nat} (h : xs.length = n)
    (ys : List Nat) : UnwrapCtx.takeBytes ⟨s, xs ++ ys⟩ n = .ok (xs, ⟨s, ys⟩) := by
  subst h
  exact takeBytes_append s xs ys

theorem absorbU_append (s : Spongos) {xs : List Nat} {n : Nat} (h : xs.length = n)
    (ys : List Nat) : UnwrapCtx.absorbU ⟨s, xs ++ ys⟩ n = .ok (xs, ⟨s.absorb xs, ys⟩) := by
  unfold UnwrapCtx.absorbU
  rw [takeBytes_append_len s h ys]

theorem maskU_any (s : Spongos) {cs : List Nat} {n : Nat} (h : cs.length = n)
    (ys : List Nat) :
    UnwrapCtx.maskU ⟨s, cs ++ ys⟩ n = .ok ((s.decrypt cs).2, ⟨(s.decrypt cs).1, ys⟩) := by
  unfold UnwrapCtx.maskU
  rw [takeBytes_append_len s h ys]

theorem maskU_enc (s : Spongos) {ps : List Nat} {n : Nat} (h : ps.length = n)
    (ys : List Nat) :
    UnwrapCtx.maskU ⟨s, (s.encrypt ps).2 ++ ys⟩ n = .ok (ps, ⟨(s.encrypt ps).1, ys⟩) := by
  rw [maskU_any s (by rw [Spongos.encrypt_length, h]) ys, Spongos.decrypt_encrypt]

theorem dropU_append (s : Spongos) {xs : List Nat} {n : Nat} (h : xs.length = n)
    (ys : List Nat) : UnwrapCtx.dropU ⟨s, xs ++ ys⟩ n = .ok ⟨s, ys⟩ := by
  unfold UnwrapCtx.dropU
  rw [takeBytes_append_len s h ys]

theorem skipU_cons (s : Spongos) (n : Nat) (ys : List Nat) :
    UnwrapCtx.skipU ⟨s, n :: ys⟩ = .ok (n, ⟨s, ys⟩) := by
  unfold UnwrapCtx.skipU
  rw [show (n :: ys) = [n] ++ ys from rfl, takeBytes_append_len s (by rfl) ys]
  rfl

theorem joinU_append (store : Nat → Spongos) (s : Spongos) (l : Nat) (ys : List Nat) :
    UnwrapCtx.joinU store ⟨s, encodeLink l ++ ys⟩ = .ok (l, ⟨store l, ys⟩) := by
  unfold UnwrapCtx.joinU
  rw [takeBytes_append_len s (encodeLink_length l) ys]
  rfl

theorem unwrapPskForks_sync (lk : KeyLookup) (s : Spongos) (key : List Nat)
    (hkey : key.length = 32) (psks : List (List Nat × List Nat))
    (hlen : ∀ p ∈ psks, p.1.length = 16) (rest : List Nat) (kf0 : Bool)
    (key0 kePks0 : List Nat) :
    ∃ key1,
      unwrapPskForks lk psks.length
        ⟨⟨s, (psks.map (pskForkOut s key)).join ++ rest⟩, kf0, key0, kePks0⟩ =
      .ok ⟨⟨s, rest⟩, kf0 || psks.any (fun p => (lookupPsk lk p.1).isSome), key1, kePks0⟩ := by
  induction psks generalizing rest kf0 key0 with
  | nil => exact ⟨key0, by simp [unwrapPskForks]⟩
  | cons p psks ih =>
    have hp1 : p.1.length = 16 := hlen p (List.mem_cons_self p psks)
    have hlen' : ∀ q ∈ psks, q.1.length = 16 := fun q hq => hlen q (List.mem_cons_of_mem p hq)
    have hco : ((((s.encrypt p.1).1.absorb p.2).commit).encrypt key).2.length = 32 := by
      rw [Spongos.encrypt_length, hkey]
    simp only [List.map_cons, List.join_cons, List.length_cons, pskForkOut,
      List.append_assoc]
    cases kf0 with
    | true =>
      have h48 : ((s.encrypt p.1).2.length = 16) := by rw [Spongos.encrypt_length, hp1]
      simp only [unwrapPskForks]
      rw [← List.append_assoc ((s.encrypt p.1).2)]
      rw [dropU_append s (by simp [h48, hco]) _]
      simp only [Except.ok.injEq]
      obtain ⟨key1, hk1⟩ := ih hlen' rest true key0
      exact ⟨key1, by rw [hk1]; simp⟩
    | false =>
      simp only [unwrapPskForks]
      rw [maskU_enc s hp1 _]
      simp only []
      cases hlp : lookupPsk lk p.1 with
      | some psk =>
        simp only [UnwrapCtx.absorbExternalU, UnwrapCtx.commitU]
        rw [maskU_any ((((s.encrypt p.1).1.absorb psk).commit)) hco _]
        simp only []
        obtain ⟨key1, hk1⟩ := ih hlen' rest true
          (((((s.encrypt p.1).1.absorb psk).commit).decrypt
            ((((s.encrypt p.1).1.absorb p.2).commit).encrypt key).2).2)
        exact ⟨key1, by rw [hk1]; simp [List.any_cons, hlp]⟩
      | none =>
        rw [dropU_append ((s.encrypt p.1).1) hco _]
        simp only []
        obtain ⟨key1, hk1⟩ := ih hlen' rest false key0
        exact ⟨key1, by rw [hk1]; simp [List.any_cons, hlp]⟩

theorem unwrapPskForks_found (lk : KeyLookup) (s : Spongos) (key : List Nat)
    (hkey : key.length = 32) (psks : List (List Nat × List Nat))
    (hlen : ∀ p ∈ psks, p.1.length = 16) (rest : List Nat)
    (key0 kePks0 : List Nat) :
    unwrapPskForks lk psks.length
      ⟨⟨s, (psks.map (pskForkOut s key)).join ++ rest⟩, true, key0, kePks0⟩ =
    .ok ⟨⟨s, rest⟩, true, key0, kePks0⟩ := by
  induction psks generalizing rest with
  | nil => simp [unwrapPskForks]
  | cons p psks ih =>
    have hp1 : p.1.length = 16 := hlen p (List.mem_cons_self p psks)
    have hlen' : ∀ q ∈ psks, q.1.length = 16 := fun q hq => hlen q (List.mem_cons_of_mem p hq)
    have h48 : ((s.encrypt p.1).2.length = 16) := by rw [Spongos.encrypt_length, hp1]
    have hco : ((((s.encrypt p.1).1.absorb p.2).commit).encrypt key).2.length = 32 := by
      rw [Spongos.encrypt_length, hkey]
    simp only [List.map_cons, List.join_cons, List.length_cons, pskForkOut,
      List.append_assoc, unwrapPskForks]
    rw [← List.append_assoc ((s.encrypt p.1).2)]
    rw [dropU_append s (by simp [h48, hco]) _]
    exact ih hlen' rest

theorem unwrapPskForks_spec (lk : KeyLookup) (s : Spongos) (key : List Nat)
    (hkey : key.length = 32) (psks : List (List Nat × List Nat))
    (hlen : ∀ p ∈ psks, p.1.length = 16)
    (hagree : ∀ p ∈ psks, ∀ q, lookupPsk lk p.1 = some q → q = p.2)
    (rest : List Nat) (key0 kePks0 : List Nat) :
    unwrapPskForks lk psks.length
      ⟨⟨s, (psks.map (pskForkOut s key)).join ++ rest⟩, false, key0, kePks0⟩ =
    .ok ⟨⟨s, rest⟩, psks.any (fun p => (lookupPsk lk p.1).isSome),
         cond (psks.any (fun p => (lookupPsk lk p.1).isSome)) key key0, kePks0⟩ := by
  induction psks generalizing rest key0 with
  | nil => simp [unwrapPskForks]
  | cons p psks ih =>
    have hp1 : p.1.length = 16 := hlen p (List.mem_cons_self p psks)
    have hlen' : ∀ q ∈ psks, q.1.length = 16 := fun q hq => hlen q (List.mem_cons_of_mem p hq)
    have hagree' : ∀ q ∈ psks, ∀ r, lookupPsk lk q.1 = some r → r = q.2 :=
      fun q hq => hagree q (List.mem_cons_of_mem p hq)
    have hco : ((((s.encrypt p.1).1.absorb p.2).commit).encrypt key).2.length = 32 := by
      rw [Spongos.encrypt_length, hkey]
    simp only [List.map_cons, List.join_cons, List.length_cons, pskForkOut,
      List.append_assoc, unwrapPskForks]
    rw [maskU_enc s hp1 _]
    simp only []
    cases hlp : lookupPsk lk p.1 with
    | some psk =>
      have hpsk : psk = p.2 := hagree p (List.mem_cons_self p psks) psk hlp
      rw [hpsk]
      simp only [UnwrapCtx.absorbExternalU, UnwrapCtx.commitU]
      rw [maskU_enc ((((s.encrypt p.1).1.absorb p.2).commit)) hkey _]
      simp only []
      rw [unwrapPskForks_found lk s key hkey psks hlen' rest key kePks0]
      simp [List.any_cons, hlp]
    | none =>
      rw [dropU_append ((s.encrypt p.1).1) hco _]
      simp only []
      rw [ih hlen' hagree' rest key0]
      simp [List.any_cons, hlp]

theorem lookupKeSk_pub {lk : KeyLookup} {pk sk : Nat} (h : lookupKeSk lk pk = some sk) :
    kePub sk = pk := by
  have h2 := List.find?_some h
  exact of_decide_eq_true h2

theorem unwrapKeForks_spec (lk : KeyLookup) (s : Spongos) (key : List Nat)
    (hkey : key.length = 32) (kps : List (Nat × Nat)) (rest : List Nat)
    (kf0 : Bool) (key0 acc : List Nat) :
    unwrapKeForks lk kps.length
      ⟨⟨s, (kps.map (keForkOut s key)).join ++ rest⟩, kf0, key0, acc⟩ =
    .ok ⟨⟨s, rest⟩, kf0 || kps.any (fun kp => (lookupKeSk lk kp.1).isSome),
         cond (kps.any (fun kp => (lookupKeSk lk kp.1).isSome)) key key0,
         acc ++ kps.map Prod.fst⟩ := by
  induction kps generalizing rest kf0 key0 acc with
  | nil => simp [unwrapKeForks]
  | cons kp kps ih =>
    have hcl : ((((s.absorb (encode32 kp.1)).absorb (encode32 (kePub kp.2))).absorb
        (encode32 (dhShared kp.2 kp.1))).commit.encrypt key).2.length = 32 := by
      rw [Spongos.encrypt_length, hkey]
    simp only [List.map_cons, List.join_cons, List.length_cons, keForkOut,
      List.append_assoc, unwrapKeForks]
    rw [absorbU_append s (encode32_length kp.1) _]
    simp only [decode32_encode32]
    cases hlk : lookupKeSk lk kp.1 with
    | some sk =>
      simp only [UnwrapCtx.x25519U]
      rw [absorbU_append (s.absorb (encode32 kp.1)) (encode32_length (kePub kp.2)) _]
      simp only [decode32_encode32, UnwrapCtx.absorbExternalU, UnwrapCtx.commitU]
      have hdh : dhShared sk (kePub kp.2) = dhShared kp.2 kp.1 := by
        rw [dhShared_comm, lookupKeSk_pub hlk]
      rw [hdh]
      rw [maskU_enc ((((s.absorb (encode32 kp.1)).absorb (encode32 (kePub kp.2))).absorb
        (encode32 (dhShared kp.2 kp.1))).commit) hkey _]
      simp only []
      rw [ih rest true key (acc ++ [kp.1])]
      simp [List.any_cons, hlk]
    | none =>
      rw [← List.append_assoc (encode32 (kePub kp.2))]
      rw [dropU_append (s.absorb (encode32 kp.1)) (by simp [encode32_length, hcl]) _]
      simp only []
      rw [ih rest kf0 key0 (acc ++ [kp.1])]
      simp [List.any_cons, hlk]

/-- C1: wrapping any Keyload content and unwrapping the produced bytes with
a lookup that knows at least one recipient's PSK or X25519 secret succeeds
and recovers a session key equal to the one wrapped. -/
theorem keyload_wrap_unwrap_roundtrip (store : Nat → Spongos) (lk : KeyLookup)
    (c : KeyloadContent)
    (hnonce : c.nonce.length = 16) (hkey : c.key.length = 32)
    (hpsk : ∀ p ∈ c.psks, p.1.length = 16)
    (hagree : ∀ p ∈ c.psks, ∀ q, lookupPsk lk p.1 = some q → q = p.2)
    (hmatch : (c.psks.any (fun p => (lookupPsk lk p.1).isSome) ||
               c.kePks.any (fun kp => (lookupKeSk lk kp.1).isSome)) = true) :
    ∃ r ctx, keyloadUnwrap store lk (keyloadWrap store c).out = .ok (r, ctx) ∧
      r.key = c.key ∧ r.link = c.link ∧ r.nonce = c.nonce ∧ ctx.inp = [] := by
  rw [keyloadWrap_out]
  unfold keyloadUnwrap
  simp only [keyloadBase, List.append_assoc, encodeSize, List.cons_append,
    List.nil_append]
  rw [joinU_append]
  simp only []
  rw [absorbU_append (store c.link) hnonce]
  simp only []
  rw [skipU_cons]
  simp only []
  rw [unwrapPskForks_spec lk ((store c.link).absorb c.nonce) c.key hkey c.psks hpsk hagree
    _ _ _]
  simp only []
  rw [skipU_cons]
  simp only []
  rw [show ((c.kePks.map (keForkOut ((store c.link).absorb c.nonce) c.key)).join)
      = (c.kePks.map (keForkOut ((store c.link).absorb c.nonce) c.key)).join ++ [] by simp]
  rw [unwrapKeForks_spec lk ((store c.link).absorb c.nonce) c.key hkey c.kePks [] _ _ _]
  simp only []
  rw [hmatch]
  simp only [guardU, if_pos]
  refine ⟨_, _, rfl, ?_, rfl, rfl, rfl⟩
  cases hka : c.kePks.any (fun kp => (lookupKeSk lk kp.1).isSome) with
  | true => simp
  | false =>
    cases hpa : c.psks.any (fun p => (lookupPsk lk p.1).isSome) with
    | true => simp
    | false => rw [hka, hpa] at hmatch; simp at hmatch

/-- Witness for C1 at a concrete single-PSK content. -/
theorem keyload_wrap_unwrap_roundtrip_witness :
    ((List.replicate 16 (3 : Nat)).length = 16) ∧
    ((List.replicate 32 (9 : Nat)).length = 32) ∧
    (∀ p ∈ [(List.replicate 16 (1 : Nat), List.replicate 32 (2 : Nat))], p.1.length = 16) ∧
    (∀ p ∈ [(List.replicate 16 (1 : Nat), List.replicate 32 (2 : Nat))], ∀ q,
      lookupPsk ⟨[(List.replicate 16 1, List.replicate 32 2)], []⟩ p.1 = some q → q = p.2) ∧
    (([(List.replicate 16 (1 : Nat), List.replicate 32 (2 : Nat))].any
        (fun p => (lookupPsk ⟨[(List.replicate 16 1, List.replicate 32 2)], []⟩ p.1).isSome) ||
      ([] : List (Nat × Nat)).any
        (fun kp => (lookupKeSk ⟨[(List.replicate 16 1, List.replicate 32 2)], []⟩ kp.1).isSome))
      = true) ∧
    (∃ r ctx,
      keyloadUnwrap (fun _ => ⟨[]⟩) ⟨[(List.replicate 16 1, List.replicate 32 2)], []⟩
          (keyloadWrap (fun _ => ⟨[]⟩)
            ⟨7, List.replicate 16 3, List.replicate 32 9,
              [(List.replicate 16 1, List.replicate 32 2)], []⟩).out = .ok (r, ctx) ∧
        r.key = List.replicate 32 9 ∧ r.link = 7 ∧ r.nonce = List.replicate 16 3 ∧
        ctx.inp = []) := by
  have hag : ∀ p ∈ [(List.replicate 16 (1 : Nat), List.replicate 32 (2 : Nat))], ∀ q,
      lookupPsk ⟨[(List.replicate 16 1, List.replicate 32 2)], []⟩ p.1 = some q → q = p.2 := by
    intro p hp q hq
    have hp2 := List.mem_singleton.mp hp
    subst hp2
    have hl : lookupPsk ⟨[(List.replicate 16 1, List.replicate 32 2)], []⟩
        (List.replicate 16 1) = some (List.replicate 32 2) := by decide
    exact Option.some.inj (hq.symm.trans hl)
  exact ⟨by decide, by decide, by decide, hag, by decide,
    keyload_wrap_unwrap_roundtrip (fun _ => ⟨[]⟩)
      ⟨[(List.replicate 16 1, List.replicate 32 2)], []⟩
      ⟨7, List.replicate 16 3, List.replicate 32 9,
        [(List.replicate 16 1, List.replicate 32 2)], []⟩
      (by decide) (by decide) (by decide) hag (by decide)⟩

/-- Modelled from the spec: the parts of the user state a keyload receive
may touch — sequencing cursors and the session keys recorded per link. -/
structure UserSt where
  cursors : List (Nat × (Nat × Nat))
  linkKeys : List (Nat × List Nat)
deriving DecidableEq

/-- Modelled from the spec: `receive_keyload` records the derived key under
the parent link and advances the cursors on success; a receive failing a
`guard` is reported, not fatal, and the user state is rolled back
(no cursor update, no key-store mutation). -/
def receiveKeyload (u : UserSt) (store : Nat → Spongos) (lk : KeyLookup)
    (inp : List Nat) : UserSt × Except String (List Nat) :=
  match keyloadUnwrap store lk inp with
  | .error e => (u, .error e)
  | .ok (r, _) =>
    ({ cursors := u.cursors.map (fun pc => (pc.1, (r.link, pc.2.2 + 1))),
       linkKeys := (r.link, r.key) :: u.linkKeys }, .ok r.key)

/-- C2: when no PSK fork matches `lookup_psk` and no X25519 fork matches
`lookup_ke_sk`, the Keyload unwrap fails with the recoverable error
"Key not found" (the `guard` on `key_found`), and the caller's user state
is byte-identical to its pre-call snapshot. -/
theorem keyload_unwrap_key_not_found (store : Nat → Spongos) (lk : KeyLookup)
    (c : KeyloadContent) (u : UserSt)
    (hnonce : c.nonce.length = 16) (hkey : c.key.length = 32)
    (hpsk : ∀ p ∈ c.psks, p.1.length = 16)
    (hnopsk : ∀ p ∈ c.psks, lookupPsk lk p.1 = none)
    (hnoke : ∀ kp ∈ c.kePks, lookupKeSk lk kp.1 = none) :
    keyloadUnwrap store lk (keyloadWrap store c).out = .error "Key not found" ∧
    receiveKeyload u store lk (keyloadWrap store c).out = (u, .error "Key not found") := by
  have hagree : ∀ p ∈ c.psks, ∀ q, lookupPsk lk p.1 = some q → q = p.2 := by
    intro p hp q hq
    rw [hnopsk p hp] at hq
    exact absurd hq (by simp)
  have hpa : c.psks.any (fun p => (lookupPsk lk p.1).isSome) = false := by
    rw [List.any_eq_false]
    intro p hp
    rw [hnopsk p hp]
    simp
  have hka : c.kePks.any (fun kp => (lookupKeSk lk kp.1).isSome) = false := by
    rw [List.any_eq_false]
    intro kp hkp
    rw [hnoke kp hkp]
    simp
  have hmain : keyloadUnwrap store lk (keyloadWrap store c).out = .error "Key not found" := by
    rw [keyloadWrap_out]
    unfold keyloadUnwrap
    simp only [keyloadBase, List.append_assoc, encodeSize, List.cons_append,
      List.nil_append]
    rw [joinU_append]
    simp only []
    rw [absorbU_append (store c.link) hnonce]
    simp only []
    rw [skipU_cons]
    simp only []
    rw [unwrapPskForks_spec lk ((store c.link).absorb c.nonce) c.key hkey c.psks hpsk hagree
      _ _ _]
    simp only []
    rw [skipU_cons]
    simp only []
    rw [show ((c.kePks.map (keForkOut ((store c.link).absorb c.nonce) c.key)).join)
        = (c.kePks.map (keForkOut ((store c.link).absorb c.nonce) c.key)).join ++ [] by simp]
    rw [unwrapKeForks_spec lk ((store c.link).absorb c.nonce) c.key hkey c.kePks [] _ _ _]
    simp only [hpa, hka, Bool.or_false, guardU]
    rfl
  exact ⟨hmain, by unfold receiveKeyload; rw [hmain]⟩

/-- Witness for C2 at a concrete content and an empty lookup. -/
theorem keyload_unwrap_key_not_found_witness :
    ((List.replicate 16 (3 : Nat)).length = 16) ∧
    ((List.replicate 32 (9 : Nat)).length = 32) ∧
    (∀ p ∈ [(List.replicate 16 (1 : Nat), List.replicate 32 (2 : Nat))], p.1.length = 16) ∧
    (∀ p ∈ [(List.replicate 16 (1 : Nat), List.replicate 32 (2 : Nat))],
      lookupPsk ⟨[], [11]⟩ p.1 = none) ∧
    (∀ kp ∈ [((5 : Nat), (4 : Nat))], lookupKeSk ⟨[], [11]⟩ kp.1 = none) ∧
    (keyloadUnwrap (fun _ => ⟨[]⟩) ⟨[], [11]⟩
        (keyloadWrap (fun _ => ⟨[]⟩)
          ⟨7, List.replicate 16 3, List.replicate 32 9,
            [(List.replicate 16 1, List.replicate 32 2)], [(5, 4)]⟩).out
      = .error "Key not found" ∧
     receiveKeyload ⟨[(0, (0, 1))], []⟩ (fun _ => ⟨[]⟩) ⟨[], [11]⟩
        (keyloadWrap (fun _ => ⟨[]⟩)
          ⟨7, List.replicate 16 3, List.replicate 32 9,
            [(List.replicate 16 1, List.replicate 32 2)], [(5, 4)]⟩).out
      = (⟨[(0, (0, 1))], []⟩, .error "Key not found")) := by
  exact ⟨by decide, by decide, by decide, by decide, by decide,
    keyload_unwrap_key_not_found (fun _ => ⟨[]⟩) ⟨[], [11]⟩
      ⟨7, List.replicate 16 3, List.replicate 32 9,
        [(List.replicate 16 1, List.replicate 32 2)], [(5, 4)]⟩
      ⟨[(0, (0, 1))], []⟩ (by decide) (by decide) (by decide) (by decide) (by decide)⟩

/-- C3: during Keyload unwrap the forks are tried in order, the first
matching fork sets `key_found`, and every remaining fork is drained
bytewise, consuming exactly the bytes the wrap pass produced for that fork
without mutating the sponge outside the fork scope — so for every lookup
whatsoever the stream position stays in sync: the unwrap of a wrapped
keyload consumes the whole stream exactly when some fork matches, and
fails only at the final `key_found` guard otherwise. -/
theorem keyload_unwrap_forks_in_sync (store : Nat → Spongos) (lk : KeyLookup)
    (c : KeyloadContent)
    (hnonce : c.nonce.length = 16) (hkey : c.key.length = 32)
    (hpsk : ∀ p ∈ c.psks, p.1.length = 16) :
    ((c.psks.any (fun p => (lookupPsk lk p.1).isSome) ||
      c.kePks.any (fun kp => (lookupKeSk lk kp.1).isSome)) = true →
      ∃ r s', keyloadUnwrap store lk (keyloadWrap store c).out = .ok (r, ⟨s', []⟩)) ∧
    ((c.psks.any (fun p => (lookupPsk lk p.1).isSome) ||
      c.kePks.any (fun kp => (lookupKeSk lk kp.1).isSome)) = false →
      keyloadUnwrap store lk (keyloadWrap store c).out = .error "Key not found") := by
  obtain ⟨key1, hk1⟩ := unwrapPskForks_sync lk ((store c.link).absorb c.nonce) c.key hkey
    c.psks hpsk
    (c.kePks.length :: (c.kePks.map (keForkOut ((store c.link).absorb c.nonce) c.key)).join)
    false (List.replicate 32 0) []
  rw [keyloadWrap_out]
  unfold keyloadUnwrap
  simp only [keyloadBase, List.append_assoc, encodeSize, List.cons_append,
    List.nil_append]
  rw [joinU_append]
  simp only []
  rw [absorbU_append (store c.link) hnonce]
  simp only []
  rw [skipU_cons]
  simp only []
  rw [hk1]
  simp only []
  rw [skipU_cons]
  simp only []
  rw [show ((c.kePks.map (keForkOut ((store c.link).absorb c.nonce) c.key)).join)
      = (c.kePks.map (keForkOut ((store c.link).absorb c.nonce) c.key)).join ++ [] by simp]
  rw [unwrapKeForks_spec lk ((store c.link).absorb c.nonce) c.key hkey c.kePks [] _ _ _]
  simp only [Bool.false_or]
  constructor
  · intro hm
    rw [hm]
    simp only [guardU, if_pos]
    exact ⟨_, _, rfl⟩
  · intro hm
    rw [hm]
    simp only [guardU]
    rfl

/-- Witness for C3 at a concrete content: a PSK-matching lookup fully
consumes the stream, and an empty lookup fails only at the guard. -/
theorem keyload_unwrap_forks_in_sync_witness :
    ((List.replicate 16 (3 : Nat)).length = 16) ∧
    ((List.replicate 32 (9 : Nat)).length = 32) ∧
    (∀ p ∈ [(List.replicate 16 (1 : Nat), List.replicate 32 (2 : Nat))], p.1.length = 16) ∧
    (([(List.replicate 16 (1 : Nat), List.replicate 32 (2 : Nat))].any
        (fun p => (lookupPsk ⟨[(List.replicate 16 1, List.replicate 32 7)], []⟩ p.1).isSome) ||
      [((5 : Nat), (4 : Nat))].any
        (fun kp => (lookupKeSk ⟨[(List.replicate 16 1, List.replicate 32 7)], []⟩ kp.1).isSome))
      = true) ∧
    (∃ r s', keyloadUnwrap (fun _ => ⟨[]⟩) ⟨[(List.replicate 16 1, List.replicate 32 7)], []⟩
        (keyloadWrap (fun _ => ⟨[]⟩)
          ⟨7, List.replicate 16 3, List.replicate 32 9,
            [(List.replicate 16 1, List.replicate 32 2)], [(5, 4)]⟩).out
      = .ok (r, ⟨s', []⟩)) := by
  refine ⟨by decide, by decide, by decide, by decide, ?_⟩
  exact (keyload_unwrap_forks_in_sync (fun _ => ⟨[]⟩)
    ⟨[(List.replicate 16 1, List.replicate 32 7)], []⟩
    ⟨7, List.replicate 16 3, List.replicate 32 9,
      [(List.replicate 16 1, List.replicate 32 2)], [(5, 4)]⟩
    (by decide) (by decide) (by decide)).1 (by decide)

/-- Outcome of an operation that can return a value, return an error, or
panic (diverge without returning). -/
inductive Outcome (α : Type) where
  | ok (a : α)
  | err (e : String)
  | panicked
deriving DecidableEq

/-- Modelled from the spec: the author state `recover` produces — announce
link committed and state synced after validation. -/
structure AuthorModel where
  seed : Nat
  announced : Bool
  synced : Bool
deriving DecidableEq

/-- Transcription of `Author::recover` from `author.rs` lines 152-163, the
externals modelled from the spec: a fresh author is created from the seed,
its own Announce message is generated deterministically (`genAnn`), the
message stored at the announcement address is retrieved from the transport
(erroring when absent), and `panic_if_not(retrieved.binary == ann.message)`
asserts the byte-match — panicking, not returning, when it fails; on a
match the announce link is committed and the state synced before the
author is returned. -/
def recover (genAnn : Nat → List Nat) (transport : Nat → Option (List Nat))
    (seed addr : Nat) : Outcome AuthorModel :=
  match transport addr with
  | none => .err "MessageNotFound"
  | some retrieved =>
    if retrieved = genAnn seed then .ok { seed := seed, announced := true, synced := true }
    else .panicked

/-- Modelled from the spec: per-user sequencing state — one
`(link, seq_num)` cursor per known participant. -/
structure SubState where
  cursors : List (Nat × (Nat × Nat))
deriving DecidableEq

/-- Modelled from the spec: single-branch handling of one received content
message — after any content publication all participants' cursors advance
to `(new_link, seq_num + 1)`. -/
def applyMsg (st : SubState) (link : Nat) : SubState :=
  ⟨st.cursors.map (fun pc => (pc.1, (link, pc.2.2 + 1)))⟩

/-- Modelled from the spec: `sync_state` fetches and applies every
available message of the single-branch chain, in order, until a pass
yields nothing. -/
def syncState (st : SubState) (chain : List Nat) : SubState :=
  chain.foldl applyMsg st

/-- Modelled from the spec: `reset_state` rewinds every cursor to the
initial post-Announce state, retaining keys. -/
def resetState (st : SubState) (ann : Nat) : SubState :=
  ⟨st.cursors.map (fun pc => (pc.1, (ann, 1)))⟩

/-- Modelled from the spec: `fetch_state` returns the participant-to-cursor
mapping. -/
def fetchState (st : SubState) : List (Nat × (Nat × Nat)) := st.cursors

/-- The subscriber state right after processing the Announce. -/
def initState (ann : Nat) (ps : List Nat) : SubState :=
  ⟨ps.map (fun p => (p, (ann, 1)))⟩

/-- Modelled from the spec: `store_state` stores the provided link in the
given participant's cursor and advances its sequence number (cursor
advance is monotone: seq_num only increases, spec section 3). -/
def storeState (st : SubState) (p : Nat) (link : Nat) : SubState :=
  ⟨st.cursors.map (fun pc => if pc.1 = p then (pc.1, (link, pc.2.2 + 1)) else pc)⟩

/-- Modelled from the spec: `store_state_for_all` "mutates every
participant cursor unconditionally" (spec section 9, open question (b)) —
every cursor is set to the provided link and sequence number. -/
def storeStateForAll (st : SubState) (link seqNum : Nat) : SubState :=
  ⟨st.cursors.map (fun pc => (pc.1, (link, seqNum)))⟩

/-- Modelled from the spec: the send-side user state — branching flag and
own sequence number. -/
structure SendUser where
  multiBranching : Bool
  seqNo : Nat
deriving DecidableEq

/-- Modelled from the spec (section 4.4 branching rules): a content send
computes the deterministic next address; in a multi-branching channel it
additionally produces the Sequence message address, in a single-branching
channel the second component is `None`. -/
def sendContent (u : SendUser) (linkTo tag : Nat) (payload : List Nat) : Nat × Option Nat :=
  let addr := (linkTo * 31 + tag * 7 + payload.sum + u.seqNo + 1) % 1000003
  if u.multiBranching then (addr, some ((addr * 31 + 5) % 1000003)) else (addr, none)

/-- Modelled from the spec: `send_keyload_for_everyone`. -/
def sendKeyloadForEveryone (u : SendUser) (linkTo : Nat) : Nat × Option Nat :=
  sendContent u linkTo 1 []

/-- Modelled from the spec: `send_signed_packet`. -/
def sendSignedPacket (u : SendUser) (linkTo : Nat) (pub mskd : List Nat) : Nat × Option Nat :=
  sendContent u linkTo 2 (pub ++ mskd)

/-- Modelled from the spec: `send_tagged_packet`. -/
def sendTaggedPacket (u : SendUser) (linkTo : Nat) (pub mskd : List Nat) : Nat × Option Nat :=
  sendContent u linkTo 3 (pub ++ mskd)

/-- Modelled from the spec: a user as built by `User::new` — keys derived
from the seed, no channel created yet. -/
structure UserModel where
  seed : Nat
  channel : Option Nat
deriving DecidableEq

/-- Modelled from the spec: `User::new` derives the key pairs from the seed
and creates no channel. -/
def userNew (seed : Nat) : UserModel := ⟨seed, none⟩

/-- An Author wraps a User (`author.rs` line 28). -/
structure AuthorU where
  user : UserModel
deriving DecidableEq

/-- Transcription of `Author::new` from `author.rs` lines 41-46: build the
user, call `create_channel(0)` and discard its `Result`
(`let _ = user.user.create_channel(channel_idx);`), then return `Self`
unconditionally. `create_channel` is not under `src/`, so its outcome is a
parameter; an error leaves the user unchanged. -/
def authorNew (createChannel : UserModel → Nat → Except String UserModel)
    (seed : Nat) : AuthorU :=
  match createChannel (userNew seed) 0 with
  | .ok user2 => ⟨user2⟩
  | .error _ => ⟨userNew seed⟩

/-- Counterexample for C4: at a concrete transport whose stored message
does not byte-match the deterministically generated Announce, `recover`
panics (via `panic_if_not`); it does not return an error result. -/
theorem recover_mismatch_panics_not_error :
    recover (fun _ => [0]) (fun _ => some [1]) 0 0 = Outcome.panicked := by decide

/-- C4 (amended): `Author::recover` creates a fresh user from the seed,
generates its own Announce deterministically, and panics via
`panic_if_not` — rather than returning an error result — whenever the
generated Announce does not byte-match the message stored at the provided
announcement address; on a byte-match it commits the announce link and
syncs state before returning the author. -/
theorem recover_panics_on_mismatch (genAnn : Nat → List Nat)
    (transport : Nat → Option (List Nat)) (seed addr : Nat) (retrieved : List Nat)
    (h : transport addr = some retrieved) :
    (retrieved ≠ genAnn seed → recover genAnn transport seed addr = .panicked) ∧
    (retrieved = genAnn seed →
      recover genAnn transport seed addr = .ok ⟨seed, true, true⟩) := by
  unfold recover
  rw [h]
  constructor
  · intro hr
    simp [hr]
  · intro hr
    simp [hr]

/-- Witness for C4's amended theorem at concrete transports for both the
mismatch and the match case. -/
theorem recover_panics_on_mismatch_witness :
    ((fun _ => some [1]) 0 = some ([1] : List Nat)) ∧
    (([1] : List Nat) ≠ (fun _ => ([0] : List Nat)) 0 →
      recover (fun _ => [0]) (fun _ => some [1]) 0 0 = .panicked) ∧
    (([1] : List Nat) = (fun _ => ([0] : List Nat)) 0 →
      recover (fun _ => [0]) (fun _ => some [1]) 0 0 = .ok ⟨0, true, true⟩) := by
  exact ⟨rfl, recover_panics_on_mismatch (fun _ => [0]) (fun _ => some [1]) 0 0 [1] rfl⟩

theorem syncState_cursors_fst (st : SubState) (chain : List Nat) :
    (syncState st chain).cursors.map Prod.fst = st.cursors.map Prod.fst := by
  induction chain generalizing st with
  | nil => rfl
  | cons m ms ih =>
    simp only [syncState, List.foldl_cons]
    rw [show List.foldl applyMsg (applyMsg st m) ms = syncState (applyMsg st m) ms from rfl]
    rw [ih]
    simp [applyMsg, List.map_map, Function.comp]

theorem resetState_eq (st : SubState) (ann : Nat) :
    resetState st ann = ⟨(st.cursors.map Prod.fst).map (fun p => (p, (ann, 1)))⟩ := by
  simp [resetState, List.map_map, Function.comp]

theorem reset_then_sync_restores (ann : Nat) (ps : List Nat) (chain : List Nat) :
    syncState (resetState (syncState (initState ann ps) chain) ann) chain =
    syncState (initState ann ps) chain := by
  have h : resetState (syncState (initState ann ps) chain) ann = initState ann ps := by
    rw [resetState_eq, syncState_cursors_fst]
    simp [initState, List.map_map, Function.comp]
  rw [h]

/-- C7: for a subscriber that has applied a chain of received messages,
`reset_state` followed by `sync_state` yields a `fetch_state` whose cursor
for each known publisher has the same link value as the pre-reset
`fetch_state`. -/
theorem reset_then_sync_restores_links (ann : Nat) (ps : List Nat) (chain : List Nat) :
    (fetchState (syncState (resetState (syncState (initState ann ps) chain) ann) chain)).map
        (fun pc => (pc.1, pc.2.1)) =
    (fetchState (syncState (initState ann ps) chain)).map (fun pc => (pc.1, pc.2.1)) := by
  rw [reset_then_sync_restores]

/-- Counterexample for C8: `store_state_for_all` overwrites cursors
unconditionally, so a call carrying a smaller sequence number decreases a
participant's `seq_num` (here from 5 down to 2). -/
theorem store_state_for_all_can_decrease_seq :
    storeStateForAll ⟨[(0, (0, 5))]⟩ 1 2 = ⟨[(0, (1, 2))]⟩ ∧ 2 < 5 := by
  exact ⟨rfl, by decide⟩

/-- C8 (amended): for every participant cursor, the send/receive cursor
update (`applyMsg`) and `store_state` never decrease `seq_num`;
`store_state_for_all` sets every participant cursor to the provided link
and sequence number unconditionally, so it can decrease a `seq_num` when
called with a smaller value — it is non-decreasing for every participant
whenever the provided sequence number is at least every current
`seq_num`. -/
theorem cursor_update_monotonicity (st : SubState) (p link l n : Nat)
    (h : ∀ pc ∈ st.cursors, pc.2.2 ≤ n) :
    List.Forall₂ (fun oldc newc => oldc.1 = newc.1 ∧ oldc.2.2 ≤ newc.2.2)
      st.cursors (applyMsg st link).cursors ∧
    List.Forall₂ (fun oldc newc => oldc.1 = newc.1 ∧ oldc.2.2 ≤ newc.2.2)
      st.cursors (storeState st p link).cursors ∧
    List.Forall₂ (fun oldc newc => oldc.1 = newc.1 ∧ oldc.2.2 ≤ newc.2.2)
      st.cursors (storeStateForAll st l n).cursors := by
  refine ⟨?_, ?_, ?_⟩
  · unfold applyMsg
    rw [List.forall₂_map_right_iff, List.forall₂_same]
    intro pc hpc
    exact ⟨rfl, Nat.le_succ pc.2.2⟩
  · unfold storeState
    rw [List.forall₂_map_right_iff, List.forall₂_same]
    intro pc hpc
    by_cases hp : pc.1 = p
    · simp only [if_pos hp]
      exact ⟨trivial, Nat.le_succ pc.2.2⟩
    · simp only [if_neg hp]
      exact ⟨trivial, Nat.le_refl pc.2.2⟩
  · unfold storeStateForAll
    rw [List.forall₂_map_right_iff, List.forall₂_same]
    intro pc hpc
    exact ⟨rfl, h pc hpc⟩

/-- Witness for C8's amended theorem at a concrete two-cursor state. -/
theorem cursor_update_monotonicity_witness :
    (∀ pc ∈ (SubState.mk [(0, (0, 1)), (1, (0, 3))]).cursors, pc.2.2 ≤ 3) ∧
    (List.Forall₂ (fun oldc newc => oldc.1 = newc.1 ∧ oldc.2.2 ≤ newc.2.2)
      (SubState.mk [(0, (0, 1)), (1, (0, 3))]).cursors
      (applyMsg ⟨[(0, (0, 1)), (1, (0, 3))]⟩ 9).cursors ∧
    List.Forall₂ (fun oldc newc => oldc.1 = newc.1 ∧ oldc.2.2 ≤ newc.2.2)
      (SubState.mk [(0, (0, 1)), (1, (0, 3))]).cursors
      (storeState ⟨[(0, (0, 1)), (1, (0, 3))]⟩ 1 9).cursors ∧
    List.Forall₂ (fun oldc newc => oldc.1 = newc.1 ∧ oldc.2.2 ≤ newc.2.2)
      (SubState.mk [(0, (0, 1)), (1, (0, 3))]).cursors
      (storeStateForAll ⟨[(0, (0, 1)), (1, (0, 3))]⟩ 9 3).cursors) := by
  exact ⟨by decide,
    cursor_update_monotonicity ⟨[(0, (0, 1)), (1, (0, 3))]⟩ 1 9 9 3 (by decide)⟩

/-- C9: in a single-branching channel every successful send
(`send_keyload_for_everyone`, `send_signed_packet`, `send_tagged_packet`)
returns a pair whose second component is `None` — no Sequence message
address. -/
theorem single_branch_send_returns_none (u : SendUser) (linkTo : Nat)
    (pub mskd : List Nat) (h : u.multiBranching = false) :
    (sendKeyloadForEveryone u linkTo).2 = none ∧
    (sendSignedPacket u linkTo pub mskd).2 = none ∧
    (sendTaggedPacket u linkTo pub mskd).2 = none := by
  simp [sendKeyloadForEveryone, sendSignedPacket, sendTaggedPacket, sendContent, h]

/-- Witness for C9 at a concrete single-branch user. -/
theorem single_branch_send_returns_none_witness :
    (SendUser.mk false 4).multiBranching = false ∧
    ((sendKeyloadForEveryone ⟨false, 4⟩ 10).2 = none ∧
     (sendSignedPacket ⟨false, 4⟩ 10 [1, 2] [3]).2 = none ∧
     (sendTaggedPacket ⟨false, 4⟩ 10 [1, 2] [3]).2 = none) := by
  exact ⟨rfl, single_branch_send_returns_none ⟨false, 4⟩ 10 [1, 2] [3] rfl⟩

/-- C10: `Author::new` always returns an Author value and never reports
failure — the `Result` of `create_channel(0)` is discarded, so a
channel-creation error during construction is silently swallowed: the
constructor still returns the author built from the fresh user. -/
theorem author_new_swallows_create_channel_error
    (createChannel : UserModel → Nat → Except String UserModel) (seed : Nat) (e : String)
    (h : createChannel (userNew seed) 0 = .error e) :
    authorNew createChannel seed = ⟨userNew seed⟩ := by
  unfold authorNew
  rw [h]

/-- Witness for C10 with a channel creation that always errors. -/
theorem author_new_swallows_create_channel_error_witness :
    ((fun _ _ => Except.error "channel creation failed" :
        UserModel → Nat → Except String UserModel) (userNew 3) 0 =
      .error "channel creation failed") ∧
    authorNew (fun _ _ => Except.error "channel creation failed") 3 = ⟨userNew 3⟩ := by
  exact ⟨rfl, author_new_swallows_create_channel_error
    (fun _ _ => Except.error "channel creation failed") 3 "channel creation failed" rfl⟩

end Streams
